import Mathlib

/-!
Verification development for the bobo request-routing and dispatch core
(`bobo/src/bobo.py`).  The Python functions are shallowly embedded as Lean
definitions:

* `_compile_route` (route patterns with `/:name` and `/:name?` placeholders,
  optional literal extensions) is embedded as a structural backtracking
  matcher over the token sequence the compiler produces.  The regex built by
  `_compile_route` alternates literal chunks with groups
  `/(?P<name>[^/]*)` (+ escaped extension), optional groups being wrapped in
  `(...)?`; full mode anchors at the start (`.match`) and with `$`, which in
  Python also matches just before a single trailing newline.  `matchRoute`
  reproduces the leftmost-greedy backtracking semantics of that regex.
* `Application.bobo_response`, the handler search loop, the error hooks and
  `build_response` are embedded with explicit outcome values standing for
  raised exceptions.
* `_make_br_function_by_methods`, `_Handler.bobo_response`,
  `_make_bobo_handle` and `_make_caller` are embedded directly.
* the ordering helpers `order` / `late` / `early` are embedded as a counter
  trace.
-/

namespace Bobo

/-! ## JSON values (the parsed bodies `request.json` can produce) -/

/-- A JSON value, as produced by Python's `json` module for a request body
and consumed by `json.dumps` in `build_response`. -/
inductive Json where
  | null
  | bool (b : Bool)
  | num (n : Int)
  | str (s : String)
  | arr (xs : List Json)
  | obj (fields : List (String × Json))

/-- Minimal JSON string escaping (backslash and double quote).
Python's `json.dumps` additionally escapes control characters and, with
the default `ensure_ascii`, non-ASCII characters; that detail of the
serialized text is not modelled. -/
def jsonEscapeChar (c : Char) : String :=
  if c = '\\' then "\\\\"
  else if c = '"' then "\\\""
  else String.mk [c]

def jsonEscape (s : String) : String :=
  String.join (s.data.map jsonEscapeChar)

mutual

/-- Model of `json.dumps` with Python's default separators. -/
def Json.dumps : Json → String
  | .null => "null"
  | .bool true => "true"
  | .bool false => "false"
  | .num n => toString n
  | .str s => "\"" ++ jsonEscape s ++ "\""
  | .arr xs => "[" ++ Json.dumpsList xs ++ "]"
  | .obj fs => "\x7b" ++ Json.dumpsFields fs ++ "\x7d"

def Json.dumpsList : List Json → String
  | [] => ""
  | [x] => Json.dumps x
  | x :: y :: rest => Json.dumps x ++ ", " ++ Json.dumpsList (y :: rest)

def Json.dumpsFields : List (String × Json) → String
  | [] => ""
  | [(k, v)] => "\"" ++ jsonEscape k ++ "\": " ++ Json.dumps v
  | (k, v) :: f :: rest =>
      "\"" ++ jsonEscape k ++ "\": " ++ Json.dumps v ++ ", " ++
        Json.dumpsFields (f :: rest)

end

/-! ## Route patterns and the compiled matcher (`_compile_route`)

`route_re = re.compile(r'(/:[a-zA-Z]\w*\??)(\.[^/]+)?')` splits a route into
a leading literal and then, per placeholder, the placeholder (with optional
`?` marker and optional `.ext` extension) followed by a separating literal.
We embed routes at that token level: `Route.preLit` is the leading literal,
and each element of `Route.parts` is one placeholder (name, optional flag,
extension — the extension is `[]` when absent, otherwise starts with `'.'`
and contains no `'/'`) together with the literal that follows it (possibly
empty).  Two placeholders are never separated by two adjacent literals. -/

structure Placeholder where
  name : String
  opt : Bool
  ext : List Char
deriving DecidableEq

structure Route where
  preLit : List Char
  parts : List (Placeholder × List Char)
deriving DecidableEq

/-- The extracted placeholder mapping: Python's filtered
`m.groupdict()` (absent optional groups omitted), in group order. -/
abbrev RouteData := List (String × String)

/-- Boolean "starts with" on char lists (the semantics of matching a
regex-escaped literal at the current position). -/
def strStarts : List Char → List Char → Bool
  | [], _ => true
  | _ :: _, [] => false
  | x :: xs, y :: ys => x == y && strStarts xs ys

/-- The character class `[^/]`. -/
def notSlash (c : Char) : Bool := c != '/'

def isSlash (c : Char) : Bool := c == '/'

/-- Match a literal chunk, then continue. -/
def matchLit (lit : List Char) (cont : List Char → Option RouteData)
    (path : List Char) : Option RouteData :=
  if strStarts lit path then cont (path.drop lit.length) else none

/-- One backtracking attempt for a placeholder group: bind the group to the
first `k` characters of the maximal slash-free run `run`, require the
extension literal right after it, and run the continuation on the rest.
`rem` is the part of the path after `run`. -/
def phAttempt (name : String) (ext : List Char)
    (cont : List Char → Option RouteData) (run rem : List Char) (k : Nat) :
    Option RouteData :=
  if strStarts ext (run.drop k ++ rem) then
    (cont ((run.drop k ++ rem).drop ext.length)).map
      (fun r => (name, String.mk (run.take k)) :: r)
  else none

/-- Greedy backtracking over the candidate lengths of `[^/]*`: regex
engines try the longest candidate first and shorten on failure. -/
def tryLen (name : String) (ext : List Char)
    (cont : List Char → Option RouteData) (run rem : List Char) :
    Nat → Option RouteData
  | 0 => phAttempt name ext cont run rem 0
  | k + 1 =>
    match phAttempt name ext cont run rem (k + 1) with
    | some r => some r
    | none => tryLen name ext cont run rem k

/-- The group body `/(?P<name>[^/]*)ext`: a slash, then the greedy
slash-free capture, then the extension. -/
def phStep (ph : Placeholder) (sep : List Char)
    (cont : List Char → Option RouteData) : List Char → Option RouteData
  | [] => none
  | c :: rest =>
    if c = '/' then
      tryLen ph.name ph.ext (matchLit sep cont)
        (rest.takeWhile notSlash) (rest.dropWhile notSlash)
        (rest.takeWhile notSlash).length
    else none

/-- A placeholder group followed by its separating literal.  When the
placeholder is optional the whole group body is wrapped in `(...)?`: the
engine first tries to match the group (with full backtracking), and only
if that fails skips it. -/
def matchPh (ph : Placeholder) (sep : List Char)
    (cont : List Char → Option RouteData) (path : List Char) :
    Option RouteData :=
  match phStep ph sep cont path with
  | some r => some r
  | none => if ph.opt then matchLit sep cont path else none

/-- Match the placeholder/separator token sequence against the whole
remaining path.  Full mode appends `$` to the compiled pattern; in
Python's default (non-MULTILINE) mode `$` matches at the very end of
the input and also just before a newline that ends the input, so an
exhausted token sequence accepts a remaining path of `""` or `"\n"`. -/
def matchParts : List (Placeholder × List Char) → List Char → Option RouteData
  | [], path => if path.isEmpty || path == ['\n'] then some [] else none
  | (ph, sep) :: ps, path => matchPh ph sep (matchParts ps) path

/-- The full-mode compiled matcher of `_compile_route(route)`:
`route_data(request, path)` (the request argument is unused in the
source). -/
def matchRoute (r : Route) (path : List Char) : Option RouteData :=
  if strStarts r.preLit path then matchParts r.parts (path.drop r.preLit.length)
  else none

/-- The path obtained from a route by substituting one string per
placeholder (keeping extensions and separating literals). -/
def substParts : List (Placeholder × List Char) → List String → List Char
  | [], _ => []
  | _ :: _, [] => []
  | (ph, sep) :: ps, v :: vs =>
      '/' :: (v.data ++ ph.ext ++ sep ++ substParts ps vs)

example :
    matchRoute ⟨"/a".data, [({ name := "x", opt := true, ext := [] }, [])]⟩
      "/a".data = some [] := by decide

example :
    matchRoute ⟨"/a".data, [({ name := "x", opt := true, ext := [] }, [])]⟩
      "/a/foo".data = some [("x", "foo")] := by decide

example :
    matchRoute ⟨[], [({ name := "a", opt := false, ext := ".json".data },
      "/b".data), ({ name := "c", opt := false, ext := [] }, [])]⟩
      "/x.json.json/b/".data = some [("a", "x.json"), ("c", "")] := by decide

/-! ## Requests, responses, exceptions -/

/-- The slice of a webob request that the embedded code consults.
`postData` is `request.POST`, `queryAndPost` is `request.params` (query
string merged with POST data), both as multi-valued association lists.
`jsonBody` is the parsed `request.json` object (assumed to be a JSON
object).  `throwErrors` is the truthiness of
`request.environ.get("x-wsgiorg.throw_errors")`, and `pathInfo` is
`request.path_info`. -/
structure Req where
  pathInfo : List Char
  postData : List (String × String)
  queryAndPost : List (String × String)
  contentType : String
  jsonBody : List (String × Json)
  throwErrors : Bool

/-- A raw body value returned by an application callable: a Python `str`,
`bytes`, or any other (JSON-serializable) object. -/
inductive Body where
  | text (s : String)
  | binary (bs : List Nat)
  | json (v : Json)

/-- A webob response body.  `text s` stands for the charset-encoded bytes
of `s` (set via `response.text` / `response.unicode_body`), `jsonText s`
for the UTF-8 bytes of the serialized JSON text `s`, `empty` for the
default empty body. -/
inductive RespBody where
  | empty
  | text (s : String)
  | binary (bs : List Nat)
  | jsonText (s : String)

/-- A webob response as far as the embedded code constructs one. -/
structure Resp where
  status : Nat
  contentType : String
  headers : List (String × String)
  body : RespBody

/-- The exceptions that cross `Application.bobo_response`'s boundaries.
`MethodNotAllowed.__init__` stores `sorted(allowed)`, so the constructor
carries the already-sorted list.  `otherError` stands for an arbitrary
application exception; `keyboardInterrupt`, `systemExit` and `memoryError`
are the members of `bbbbad_errors`. -/
inductive Exc where
  | boboException (status : Nat) (body : Body) (contentType : String)
      (headers : List (String × String))
  | missingFormVariable (name : String)
  | notFound
  | methodNotAllowed (allowed : List String)
  | keyboardInterrupt
  | systemExit
  | memoryError
  | otherError (info : String)
  | typeError

/-- Lexicographic comparison of char lists by code point — the order
Python's `sorted` uses on strings. -/
def charListLe : List Char → List Char → Bool
  | [], _ => true
  | _ :: _, [] => false
  | c :: cs, d :: ds =>
    if c < d then true else if d < c then false else charListLe cs ds

def strLe (a b : String) : Bool := charListLe a.data b.data

instance : IsTrans String (fun a b => strLe a b = true) := by
  constructor
  intro a b c hab hbc
  unfold strLe at hab hbc ⊢
  revert hab hbc
  generalize a.data = x
  generalize b.data = y
  generalize c.data = z
  induction x generalizing y z with
  | nil => intro hab hbc; rfl
  | cons xc xs ih =>
    intro hab hbc
    cases y with
    | nil => simp [charListLe] at hab
    | cons yc ys =>
      cases z with
      | nil => simp [charListLe] at hbc
      | cons zc zs =>
        rw [charListLe] at hab hbc ⊢
        by_cases h1 : xc < yc
        · by_cases h2 : yc < zc
          · rw [if_pos (lt_trans h1 h2)]
          · by_cases h3 : zc < yc
            · rw [if_neg h2, if_pos h3] at hbc; cases hbc
            · have he : yc = zc := le_antisymm (not_lt.mp h3) (not_lt.mp h2)
              rw [he] at h1
              rw [if_pos h1]
        · by_cases h1b : yc < xc
          · rw [if_neg h1, if_pos h1b] at hab; cases hab
          · have he : xc = yc := le_antisymm (not_lt.mp h1b) (not_lt.mp h1)
            subst he
            rw [if_neg h1, if_neg h1b] at hab
            by_cases h2 : xc < zc
            · rw [if_pos h2]
            · by_cases h3 : zc < xc
              · rw [if_neg h2, if_pos h3] at hbc; cases hbc
              · rw [if_neg h2, if_neg h3] at hbc ⊢
                exact ih ys zs hab hbc

instance : IsAntisymm String (fun a b => strLe a b = true) := by
  constructor
  intro a b hab hba
  unfold strLe at hab hba
  have hd : a.data = b.data := by
    revert hab hba
    generalize a.data = x
    generalize b.data = y
    induction x generalizing y with
    | nil =>
      intro hab hba
      cases y with
      | nil => rfl
      | cons yc ys => simp [charListLe] at hba
    | cons xc xs ih =>
      intro hab hba
      cases y with
      | nil => simp [charListLe] at hab
      | cons yc ys =>
        rw [charListLe] at hab hba
        by_cases h1 : xc < yc
        · rw [if_neg (lt_asymm h1), if_pos h1] at hba; cases hba
        · by_cases h2 : yc < xc
          · rw [if_neg h1, if_pos h2] at hab; cases hab
          · have he : xc = yc := le_antisymm (not_lt.mp h2) (not_lt.mp h1)
            subst he
            rw [if_neg h1, if_neg h2] at hab hba
            rw [ih ys hab hba]
  cases a
  cases b
  exact congrArg String.mk hd

instance : IsTotal String (fun a b => strLe a b = true) := by
  constructor
  intro a b
  unfold strLe
  generalize a.data = x
  generalize b.data = y
  induction x generalizing y with
  | nil => exact Or.inl rfl
  | cons xc xs ih =>
    cases y with
    | nil => exact Or.inr rfl
    | cons yc ys =>
      rw [charListLe, charListLe]
      by_cases h1 : xc < yc
      · exact Or.inl (by rw [if_pos h1])
      · by_cases h2 : yc < xc
        · exact Or.inr (by rw [if_pos h2])
        · rw [if_neg h1, if_neg h2, if_neg h2, if_neg h1]
          exact ih ys

/-- Python `sorted` on a list of strings (a stable ascending sort by
code point). -/
def sortStrings (ms : List String) : List String :=
  List.insertionSort (fun a b => strLe a b = true) ms

/-! ## The default error hooks (`_err_response` and friends) -/

def htmlPage (title message : String) : String :=
  "<html>\n<head><title>" ++ title ++ "</title></head>\n<body>" ++ message ++
    "</body>\n</html>\n"

/-- `_err_response(status, method, title, message, headers)`: builds the
HTML error response, suppressing the body for HEAD requests. -/
def errResponse (status : Nat) (method : String) (title message : String)
    (headers : List (String × String)) : Resp :=
  { status := status, contentType := "text/html; charset=UTF-8",
    headers := headers,
    body := if method = "HEAD" then .empty else .text (htmlPage title message) }

/-- UTF-8 encoding of one character, as byte values. -/
def utf8Bytes (c : Char) : List Nat :=
  if c.toNat < 0x80 then [c.toNat]
  else if c.toNat < 0x800 then
    [0xC0 + c.toNat / 0x40, 0x80 + c.toNat % 0x40]
  else if c.toNat < 0x10000 then
    [0xE0 + c.toNat / 0x1000, 0x80 + c.toNat / 0x40 % 0x40,
      0x80 + c.toNat % 0x40]
  else
    [0xF0 + c.toNat / 0x40000, 0x80 + c.toNat / 0x1000 % 0x40,
      0x80 + c.toNat / 0x40 % 0x40, 0x80 + c.toNat % 0x40]

def hexDigit (n : Nat) : Char :=
  if n < 10 then Char.ofNat (48 + n) else Char.ofNat (55 + n)

def pctByte (b : Nat) : String :=
  String.mk ['%', hexDigit (b / 16), hexDigit (b % 16)]

/-- Characters `urllib.parse.quote` leaves alone with the default
`safe='/'`: ASCII letters, digits, `_`, `.`, `-`, `~` and `/`. -/
def quoteSafe (c : Char) : Bool :=
  (('a' ≤ c && c ≤ 'z') || ('A' ≤ c && c ≤ 'Z') || ('0' ≤ c && c ≤ '9') ||
    c == '_' || c == '.' || c == '-' || c == '~' || c == '/')

/-- `urllib.parse.quote(s.encode("utf-8"))`. -/
def urlQuote (s : String) : String :=
  String.join (s.data.map (fun c =>
    if quoteSafe c then String.mk [c]
    else String.join ((utf8Bytes c).map pctByte)))

/-- `Application.not_found`. -/
def notFoundResp (req : Req) (method : String) : Resp :=
  errResponse 404 method "Not Found"
    ("Could not find: " ++ urlQuote (String.mk req.pathInfo)) []

/-- `Application.missing_form_variable`. -/
def missingFormVariableResp (method name : String) : Resp :=
  errResponse 403 method "Missing parameter" ("Missing form variable " ++ name)
    []

/-- `Application.method_not_allowed`: 405 with an `Allow` header listing
the sorted methods. -/
def methodNotAllowedResp (method : String) (methods : Finset String) : Resp :=
  errResponse 405 method "Method Not Allowed"
    ("Invalid request method: " ++ method)
    [("Allow", String.intercalate ", "
      (methods.sort (fun a b => strLe a b = true)))]

/-- `Application.exception` (the logging side effect is not modelled). -/
def exceptionResp (method : String) : Resp :=
  errResponse 500 method "Internal Server Error" "An error occurred." []

/-- `_json_content_type = re.compile('application/json;?').match`: an
anchored prefix match, the `;?` being optional. -/
def jsonContentType (ct : String) : Bool :=
  strStarts "application/json".data ct.data

/-- `Application.build_response`, which turns the data carried by a
`BoboException` into a response; `.error ()` is the `TypeError('bad
response', ...)` branch. -/
def buildResponse (method : String) (status : Nat) (body : Body)
    (contentType : String) (headers : List (String × String)) :
    Except Unit Resp :=
  if method = "HEAD" then
    .ok ⟨status, contentType, headers, .empty⟩
  else
    match body with
    | .text s => .ok ⟨status, contentType, headers, .text s⟩
    | .binary bs => .ok ⟨status, contentType, headers, .binary bs⟩
    | .json v =>
      if jsonContentType contentType then
        .ok ⟨status, contentType, headers, .jsonText (Json.dumps v)⟩
      else .error ()

/-! ## The dispatcher (`Application.bobo_response`) -/

/-- What one call of a handler's `bobo_response` does: return a response,
return `None`, or raise. -/
inductive HandlerOutcome where
  | ok (r : Option Resp)
  | exc (e : Exc)

/-- The uniform resolution contract `(request, path, method)`. -/
abbrev HFn := Req → List Char → String → HandlerOutcome

/-- Result of the `for handler in self.handlers` loop: a response, the
accumulated `allowed` set after exhausting all handlers, or an exception
escaping the loop. -/
inductive SearchResult where
  | response (r : Resp)
  | exhausted (allowed : Finset String)
  | raised (e : Exc)

/-- The search loop of `Application.bobo_response`: handlers in list
order; `MethodNotAllowed` is caught, its allowed set unioned into the
accumulator, and the search continues; the first non-`None` response
wins; any other exception escapes. -/
def searchHandlers : List HFn → Finset String → Req → List Char → String →
    SearchResult
  | [], allowed, _, _, _ => .exhausted allowed
  | h :: hs, allowed, req, path, method =>
    match h req path method with
    | .ok (some r) => .response r
    | .ok none => searchHandlers hs allowed req path method
    | .exc (.methodNotAllowed ms) =>
        searchHandlers hs (allowed ∪ ms.toFinset) req path method
    | .exc e => .raised e

/-- The application state used by `bobo_response`: the handler list and
`self.reraise_exceptions` (the negation of `bobo_handle_exceptions`). -/
structure App where
  handlers : List HFn
  reraiseExceptions : Bool

/-- A call of `Application.bobo_response` either returns a response or
lets an exception propagate to the caller. -/
inductive BoboResult where
  | resp (r : Resp)
  | raised (e : Exc)

/-- `Application.bobo_response`: run the search loop, turn exhaustion into
405/404, and map escaped exceptions through the `except` clauses
(`BoboException` → `build_response`, `MissingFormVariable` →
`missing_form_variable`, `NotFound` → `not_found`, `bbbbad_errors`
re-raised, anything else rendered by `exception` unless
`reraise_exceptions` or the `x-wsgiorg.throw_errors` environ key is
set).  A `TypeError` raised by `build_response` inside the first
`except` clause propagates. -/
def boboResponse (app : App) (req : Req) (path : List Char)
    (method : String) : BoboResult :=
  match searchHandlers app.handlers ∅ req path method with
  | .response r => .resp r
  | .exhausted allowed =>
    if allowed.Nonempty then .resp (methodNotAllowedResp method allowed)
    else .resp (notFoundResp req method)
  | .raised (.boboException status body ct headers) =>
    match buildResponse method status body ct headers with
    | .ok r => .resp r
    | .error _ => .raised .typeError
  | .raised (.missingFormVariable name) =>
    .resp (missingFormVariableResp method name)
  | .raised .notFound => .resp (notFoundResp req method)
  | .raised .keyboardInterrupt => .raised .keyboardInterrupt
  | .raised .systemExit => .raised .systemExit
  | .raised .memoryError => .raised .memoryError
  | .raised e =>
    if app.reraiseExceptions || req.throwErrors then .raised e
    else .resp (exceptionResp method)

/-! ## Method-keyed route groups (`_make_br_function_by_methods`) -/

/-- A Python dict keyed by method name (`None` being the "any method"
fallback key), as an association list with distinct keys. -/
def dictGet (d : List (Option String × HFn)) (k : Option String) :
    Option HFn :=
  (d.find? (fun e => e.1 == k)).map (fun e => e.2)

/-- `_make_br_function_by_methods(route, by_method)`: look the request
method up, fall back to the `None` entry, and when neither exists raise
`MethodNotAllowed(by_method)` if the route matches the path (Python's
`sorted(dict)` lists the sorted keys) or return `None` otherwise. -/
def makeBrFunctionByMethods (route : Route)
    (byMethod : List (Option String × HFn)) : HFn :=
  fun req path method =>
    match (match dictGet byMethod (some method) with
           | some h => some h
           | none => dictGet byMethod none) with
    | some handler => handler req path method
    | none =>
      match matchRoute route path with
      | some _ =>
          .exc (.methodNotAllowed
            (sortStrings (byMethod.filterMap (fun e => e.1))))
      | none => .ok none

/-! ## Handler nodes (`_Handler.match` / `_Handler.bobo_response`) -/

/-- One `_Handler`: the compiled route, the optional accepted-method
tuple (`None` meaning any method), and `bobo_handle` (the wrapped call,
already composed with the parameter binder and check function). -/
structure HandlerNode where
  route : Route
  methods : Option (List String)
  handle : Req → RouteData → HandlerOutcome

/-- `_Handler.match`: route data, `None`, or a raised
`MethodNotAllowed(methods)`. -/
def nodeMatch (h : HandlerNode) (path : List Char) (method : String) :
    Except Exc (Option RouteData) :=
  match h.methods with
  | none => .ok (matchRoute h.route path)
  | some ms =>
    match matchRoute h.route path with
    | none => .ok none
    | some data =>
      if method ∈ ms then .ok (some data)
      else .error (.methodNotAllowed (sortStrings ms))

/-- `_Handler.bobo_response` for a plain function handler:
no match delegates to `bobo_sub_find` (which returns `None` for an
unstacked handler), a match invokes `bobo_handle` with the route data. -/
def handlerBoboResponse (h : HandlerNode) : HFn :=
  fun req path method =>
    match nodeMatch h path method with
    | .error e => .exc e
    | .ok none => .ok none
    | .ok (some data) => h.handle req data

/-! ## Wrapping handler results (`_make_bobo_handle`) -/

/-- What the wrapped callable returns: either a value with a `__call__`
attribute (usable as a response directly) or plain data. -/
inductive FuncResult where
  | responder (r : Resp)
  | data (b : Body)

def runHandlerFunc (func : Req → RouteData → FuncResult)
    (contentType : String) (req : Req) (routeData : RouteData) :
    HandlerOutcome :=
  match func req routeData with
  | .responder r => .ok (some r)
  | .data b => .exc (.boboException 200 b contentType [])

/-- `_make_bobo_handle(func, original, check, content_type)`: run the
check first (a non-`None` check result short-circuits), then the
callable; a non-callable result is raised as
`BoboException(200, result, content_type)`. -/
def makeBoboHandle (func : Req → RouteData → FuncResult)
    (check : Option (Req → Option Resp)) (contentType : String) :
    Req → RouteData → HandlerOutcome :=
  fun req routeData =>
    match check with
    | some c =>
      match c req with
      | some r => .ok (some r)
      | none => runHandlerFunc func contentType req routeData
    | none => runHandlerFunc func contentType req routeData

/-! ## Parameter binding (`_make_caller`) -/

/-- The two `paramsattr` modes: `params='POST'` (post/put decorators) and
`params='params'` (query/get/head/options decorators). -/
inductive ParamMode where
  | postOnly
  | queryOrPost

def paramSource (mode : ParamMode) (req : Req) : List (String × String) :=
  match mode with
  | .postOnly => req.postData
  | .queryOrPost => req.queryAndPost

/-- `request.POST.getall(name)` / `request.params.getall(name)`. -/
def getAll (src : List (String × String)) (name : String) : List String :=
  (src.filter (fun e => e.1 == name)).map (fun e => e.2)

def lookupStr (l : List (String × String)) (name : String) : Option String :=
  (l.find? (fun e => e.1 == name)).map (fun e => e.2)

def lookupJson (l : List (String × Json)) (name : String) : Option Json :=
  (l.find? (fun e => e.1 == name)).map (fun e => e.2)

/-- A value bound to one keyword argument: a single string, a sequence of
strings (repeated form fields), a JSON value, or the request object
itself (for `bobo_request`). -/
inductive PVal where
  | str (s : String)
  | strs (vs : List String)
  | json (v : Json)
  | request

/-- One iteration of the binding loop in `bobo_apply`: `bobo_request`
gets the request; otherwise route data wins, then form/query data (one
value unwrapped, several passed as a list), then — when the content type
equals `application/json` — the parsed JSON body; a still-missing value
raises `MissingFormVariable(name)` when the parameter is required and is
omitted otherwise. -/
def bindParam (mode : ParamMode) (req : Req) (routeData : RouteData)
    (name : String) (required : Bool) :
    Except Exc (Option (String × PVal)) :=
  if name = "bobo_request" then .ok (some (name, .request))
  else
    match lookupStr routeData name with
    | some v => .ok (some (name, .str v))
    | none =>
      match getAll (paramSource mode req) name with
      | [] =>
        match (if req.contentType = "application/json" then
                 lookupJson req.jsonBody name
               else none) with
        | some jv => .ok (some (name, .json jv))
        | none =>
          if required then .error (.missingFormVariable name) else .ok none
      | [v] => .ok (some (name, .str v))
      | vs => .ok (some (name, .strs vs))

/-- `getargspec` data for a plain function handler: the declared argument
names in order and the number of trailing arguments that have
defaults. -/
structure ArgSpec where
  args : List String
  ndefaults : Nat

/-- The binding loop of `bobo_apply` over the declared argument names,
`idx` being the positional index and `nrequired` the count of arguments
without defaults. -/
def bindArgs (mode : ParamMode) (req : Req) (routeData : RouteData)
    (names : List String) (idx nrequired : Nat) :
    Except Exc (List (String × PVal)) :=
  match names with
  | [] => .ok []
  | name :: rest =>
    match bindParam mode req routeData name (idx < nrequired) with
    | .error e => .error e
    | .ok entry =>
      match bindArgs mode req routeData rest (idx + 1) nrequired with
      | .error e => .error e
      | .ok tail =>
        .ok (match entry with
             | some kv => kv :: tail
             | none => tail)

/-- `bobo_apply` for a plain function handler (no bound receiver): the
keyword arguments actually passed to the callable. -/
def boboApply (spec : ArgSpec) (mode : ParamMode) (req : Req)
    (routeData : RouteData) : Except Exc (List (String × PVal)) :=
  bindArgs mode req routeData spec.args 0 (spec.args.length - spec.ndefaults)

/-! ## Ordering keys (`order` / `late` / `early`) -/

/-- `_late_base = 1 << 99`. -/
def lateBase : Int := 2 ^ 99

/-- Which of the three ordering helpers a registration called. -/
inductive CallKind where
  | ord
  | late
  | early
deriving DecidableEq

/-- The key produced when the global counter (after incrementing) is
`c`: `order()` returns `c`, `late()` returns `c + 2^99`, `early()`
returns `c - 2^99`. -/
def callValue : CallKind → Nat → Int
  | .ord, c => c
  | .late, c => (c : Int) + lateBase
  | .early, c => (c : Int) - lateBase

/-- Run a sequence of `order`/`late`/`early` calls against the global
counter, starting from counter value `c`. -/
def traceValuesFrom : List CallKind → Nat → List (CallKind × Int)
  | [], _ => []
  | k :: ks, c => (k, callValue k (c + 1)) :: traceValuesFrom ks (c + 1)

def traceValues (calls : List CallKind) : List (CallKind × Int) :=
  traceValuesFrom calls 0

/-- The stable sort by ordering key that `_scan_module` performs
(`resources.sort(key=lambda o: o[0])`). -/
def sortedTrace (calls : List CallKind) : List (CallKind × Int) :=
  List.insertionSort (fun a b => a.2 ≤ b.2) (traceValues calls)

/-! ## Statement helpers for the claims -/

/-- The claim's accumulator: the union of the allowed-method sets of all
`MethodNotAllowed` outcomes in the handler list, for one request. -/
def mnaUnion : List HFn → Req → List Char → String → Finset String
  | [], _, _, _ => ∅
  | h :: hs, req, path, method =>
    (match h req path method with
     | .exc (.methodNotAllowed ms) => ms.toFinset
     | _ => (∅ : Finset String)) ∪ mnaUnion hs req path method

/-- The route pattern `/x` (no placeholders). -/
def routeX : Route := { preLit := "/x".data, parts := [] }

/-- The route pattern `/:a`. -/
def routeColonA : Route :=
  { preLit := [], parts := [({ name := "a", opt := false, ext := [] }, [])] }

/-- The route pattern `/a/:x?`. -/
def routeAX : Route :=
  { preLit := "/a".data,
    parts := [({ name := "x", opt := true, ext := [] }, [])] }

instance : IsTotal (CallKind × Int) (fun a b => a.2 ≤ b.2) :=
  ⟨fun a b => Int.le_total a.2 b.2⟩

instance : IsTrans (CallKind × Int) (fun a b => a.2 ≤ b.2) :=
  ⟨fun _ _ _ hab hbc => le_trans hab hbc⟩

/-- A request fixture with everything empty. -/
def emptyReq : Req :=
  { pathInfo := [], postData := [], queryAndPost := [], contentType := "",
    jsonBody := [], throwErrors := false }

/-- A request fixture with `x-wsgiorg.throw_errors` set. -/
def throwReq : Req := { emptyReq with throwErrors := true }

/-- A POST request to `/3` with body field `a=5`. -/
def postA5Req : Req :=
  { emptyReq with
    pathInfo := "/3".data
    postData := [("a", "5")]
    queryAndPost := [("a", "5")]
    contentType := "application/x-www-form-urlencoded" }

/-! Handler fixtures used by the witnesses. -/

def hNone : HFn := fun _ _ _ => .ok none

def hGetOnly : HFn := fun _ _ _ => .exc (.methodNotAllowed ["GET"])

def hPostOnly : HFn := fun _ _ _ => .exc (.methodNotAllowed ["POST"])

def okResp : Resp :=
  { status := 200, contentType := "text/plain", headers := [],
    body := .text "hi" }

def hOk : HFn := fun _ _ _ => .ok (some okResp)

def hBoom : HFn := fun _ _ _ => .exc (.otherError "boom")

/-! # Theorems

First the list/string helper lemmas, then the inversion lemmas for the
route matcher, then the claim theorems. -/

theorem strStarts_iff : ∀ (a b : List Char),
    strStarts a b = true ↔ ∃ t, b = a ++ t
  | [], b => by simp [strStarts]
  | _ :: _, [] => by simp [strStarts]
  | x :: xs, y :: ys => by
    simp only [strStarts, Bool.and_eq_true, beq_iff_eq, strStarts_iff xs ys,
      List.cons_append, List.cons.injEq]
    constructor
    · rintro ⟨rfl, t, rfl⟩
      exact ⟨t, rfl, rfl⟩
    · rintro ⟨t, rfl, rfl⟩
      exact ⟨rfl, t, rfl⟩

theorem strStarts_append (a t : List Char) : strStarts a (a ++ t) = true :=
  (strStarts_iff a (a ++ t)).mpr ⟨t, rfl⟩

theorem matchLit_cont (lit : List Char) (cont : List Char → Option RouteData)
    (t : List Char) : matchLit lit cont (lit ++ t) = cont t := by
  simp [matchLit, strStarts_append, List.drop_left]

theorem matchLit_some_inv {lit : List Char} {cont : List Char → Option RouteData}
    {path : List Char} {r : RouteData} (h : matchLit lit cont path = some r) :
    ∃ t, path = lit ++ t ∧ cont t = some r := by
  unfold matchLit at h
  cases hss : strStarts lit path with
  | false => rw [hss] at h; cases h
  | true =>
    obtain ⟨t, rfl⟩ := (strStarts_iff _ _).mp hss
    rw [hss, if_pos rfl, List.drop_left] at h
    exact ⟨t, rfl, h⟩

theorem matchParts_nil_some {q : List Char} {r : RouteData}
    (h : matchParts [] q = some r) : (q = [] ∨ q = ['\n']) ∧ r = [] := by
  by_cases h1 : q = []
  · subst h1
    have h2 : some ([] : RouteData) = some r := h
    exact ⟨Or.inl rfl, (Option.some_inj.mp h2).symm⟩
  · by_cases h2 : q = ['\n']
    · subst h2
      have h3 : some ([] : RouteData) = some r := h
      exact ⟨Or.inr rfl, (Option.some_inj.mp h3).symm⟩
    · exfalso
      have hfalse : ¬ ((q.isEmpty || q == ['\n']) = true) := by
        simp only [Bool.or_eq_true, beq_iff_eq, List.isEmpty_eq_true]
        rintro (hie | hnl)
        · exact h1 hie
        · exact h2 hnl
      have hnone : matchParts [] q = none := by
        simp only [matchParts]
        exact if_neg hfalse
      rw [hnone] at h
      cases h

theorem phAttempt_some_inv {name : String} {ext : List Char}
    {cont : List Char → Option RouteData} {run rem : List Char} {k : Nat}
    {r : RouteData} (h : phAttempt name ext cont run rem k = some r) :
    strStarts ext (run.drop k ++ rem) = true ∧
      ∃ r2, cont ((run.drop k ++ rem).drop ext.length) = some r2 ∧
        r = (name, String.mk (run.take k)) :: r2 := by
  unfold phAttempt at h
  cases hss : strStarts ext (run.drop k ++ rem) with
  | false => rw [hss] at h; cases h
  | true =>
    rw [hss, if_pos rfl] at h
    obtain ⟨r2, hc, hr⟩ := Option.map_eq_some'.mp h
    exact ⟨rfl, r2, hc, hr.symm⟩

theorem tryLen_some_inv {name : String} {ext : List Char}
    {cont : List Char → Option RouteData} {run rem : List Char} {k : Nat}
    {r : RouteData} (h : tryLen name ext cont run rem k = some r) :
    ∃ j, j ≤ k ∧ phAttempt name ext cont run rem j = some r ∧
      ∀ i, j < i → i ≤ k → phAttempt name ext cont run rem i = none := by
  induction k with
  | zero =>
    exact ⟨0, Nat.le_refl 0, h,
      fun i hi1 hi2 => absurd (Nat.lt_of_lt_of_le hi1 hi2) (Nat.lt_irrefl 0)⟩
  | succ k ih =>
    rw [tryLen] at h
    cases hA : phAttempt name ext cont run rem (k + 1) with
    | some r2 =>
      rw [hA] at h
      refine ⟨k + 1, Nat.le_refl _, by rw [hA]; exact h, ?_⟩
      intro i hi1 hi2
      exact absurd (Nat.lt_of_lt_of_le hi1 hi2) (Nat.lt_irrefl _)
    | none =>
      rw [hA] at h
      obtain ⟨j, hj, hAtt, hmax⟩ := ih h
      refine ⟨j, Nat.le_succ_of_le hj, hAtt, ?_⟩
      intro i hi1 hi2
      rcases Nat.eq_or_lt_of_le hi2 with rfl | hlt
      · exact hA
      · exact hmax i hi1 (Nat.lt_succ_iff.mp hlt)

theorem not_mem_takeWhile_notSlash (l : List Char) :
    '/' ∉ l.takeWhile notSlash := by
  intro h
  have := List.mem_takeWhile_imp h
  simp [notSlash] at this

theorem dropWhile_head_not {α : Type} {p : α → Bool} {l : List α} {x : α}
    {xs : List α} (h : l.dropWhile p = x :: xs) : p x = false := by
  induction l with
  | nil => cases h
  | cons a as ih =>
    rw [List.dropWhile_cons] at h
    by_cases hp : p a = true
    · rw [if_pos hp] at h
      exact ih h
    · rw [if_neg hp] at h
      cases h
      cases hb : p x with
      | true => exact absurd hb hp
      | false => rfl

/-- A route with no placeholders matches exactly its literal, possibly
followed by a single trailing newline (the `$` anchor). -/
theorem matchRoute_noParts (lit path : List Char) :
    matchRoute ⟨lit, []⟩ path =
      if path = lit ∨ path = lit ++ ['\n'] then some [] else none := by
  unfold matchRoute
  cases hss : strStarts lit path with
  | false =>
    have hne1 : path ≠ lit := by
      rintro rfl
      rw [show strStarts path path = true from by
        simpa using strStarts_append path []] at hss
      cases hss
    have hne2 : path ≠ lit ++ ['\n'] := by
      rintro rfl
      rw [strStarts_append] at hss
      cases hss
    simp [hne1, hne2]
  | true =>
    obtain ⟨t, rfl⟩ := (strStarts_iff _ _).mp hss
    rw [if_pos rfl]
    simp only [List.drop_left]
    by_cases h1 : t = []
    · subst h1
      simp [matchParts]
    · by_cases h2 : t = ['\n']
      · subst h2
        simp [matchParts]
      · have hc1 : lit ++ t ≠ lit := fun he =>
          h1 (List.append_cancel_left (he.trans (List.append_nil lit).symm))
        have hc2 : lit ++ t ≠ lit ++ ['\n'] := fun he =>
          h2 (List.append_cancel_left he)
        simp [matchParts, h1, h2, hc1, hc2]

/-- Claim C10: a non-optional placeholder matches the empty segment — for
every pattern of the form `<literal>/:name` in full mode, the compiled
matcher applied to the path `<literal>/` succeeds and returns the mapping
binding `name` to the empty string. -/
theorem claim_C10 (lit : List Char) (name : String) :
    matchRoute ⟨lit, [({ name := name, opt := false, ext := [] }, [])]⟩
      (lit ++ ['/']) = some [(name, "")] := by
  unfold matchRoute
  simp only [strStarts_append, if_pos rfl, List.drop_left]
  simp [matchParts, matchPh, phStep, tryLen, phAttempt, matchLit, strStarts]

/-- Claim C4: the full-mode matcher of `/a/:x?` maps `/a` to the empty
mapping and `/a/foo` to `x ↦ "foo"`; in general a successful match of
this route either omits `x` entirely (path exactly `/a`, or `/a` with
the single trailing newline that the `$` anchor also accepts) or binds
`x` to the slash-free final segment — an absent optional placeholder
never appears in the mapping. -/
theorem claim_C4 :
    matchRoute routeAX "/a".data = some [] ∧
    matchRoute routeAX "/a/foo".data = some [("x", "foo")] ∧
    ∀ (path : List Char) (bs : RouteData), matchRoute routeAX path = some bs →
      (path = "/a".data ∧ bs = []) ∨
      (path = "/a".data ++ ['\n'] ∧ bs = []) ∨
      ∃ v : List Char, '/' ∉ v ∧ path = "/a".data ++ '/' :: v ∧
        bs = [("x", String.mk v)] := by
  refine ⟨by decide, by decide, ?_⟩
  intro path bs h
  unfold matchRoute routeAX at h
  cases hss : strStarts "/a".data path with
  | false => rw [hss] at h; cases h
  | true =>
    obtain ⟨t, rfl⟩ := (strStarts_iff _ _).mp hss
    rw [hss, if_pos rfl] at h
    rw [List.drop_left] at h
    rw [show matchParts [({ name := "x", opt := true, ext := [] }, [])] t =
        matchPh { name := "x", opt := true, ext := [] } [] (matchParts []) t
        from rfl] at h
    unfold matchPh at h
    cases hps : phStep { name := "x", opt := true, ext := [] } []
        (matchParts []) t with
    | some r =>
      rw [hps] at h
      cases t with
      | nil => simp [phStep] at hps
      | cons c cs =>
        by_cases hc : c = '/'
        · subst hc
          rw [show phStep { name := "x", opt := true, ext := [] } []
              (matchParts []) ('/' :: cs) =
              tryLen "x" [] (matchLit [] (matchParts []))
                (cs.takeWhile notSlash) (cs.dropWhile notSlash)
                (cs.takeWhile notSlash).length from by
            simp [phStep]] at hps
          obtain ⟨j, hj, hAtt, hmax⟩ := tryLen_some_inv hps
          obtain ⟨-, r2, hcont, hr⟩ := phAttempt_some_inv hAtt
          simp only [List.length_nil, List.drop_zero] at hcont
          rw [show matchLit [] (matchParts [])
              ((cs.takeWhile notSlash).drop j ++ cs.dropWhile notSlash) =
              matchParts []
                ((cs.takeWhile notSlash).drop j ++ cs.dropWhile notSlash) from by
            simpa using
              matchLit_cont [] (matchParts [])
                ((cs.takeWhile notSlash).drop j ++ cs.dropWhile notSlash)]
            at hcont
          obtain ⟨harg, hr2⟩ := matchParts_nil_some hcont
          subst hr2
          rcases harg with hnil | hnl
          · obtain ⟨hrun, hrem⟩ := List.append_eq_nil.mp hnil
            have htake : (cs.takeWhile notSlash).take j =
                cs.takeWhile notSlash := by
              have h5 := List.take_append_drop j (cs.takeWhile notSlash)
              rwa [hrun, List.append_nil] at h5
            have hcs : cs.takeWhile notSlash = cs := by
              have h5 := List.takeWhile_append_dropWhile (p := notSlash)
                (l := cs)
              rwa [hrem, List.append_nil] at h5
            refine Or.inr (Or.inr ⟨cs, ?_, rfl, ?_⟩)
            · rw [← hcs]; exact not_mem_takeWhile_notSlash cs
            · have h6 : r = [("x", String.mk cs)] := by
                rw [hr, htake, hcs]
              rw [← h6]
              exact (Option.some_inj.mp h).symm
          · -- the `$`-before-newline end can only fire with the newline
            -- inside the capture's slash-free run, but then the greedy
            -- scan would already have succeeded one character further
            exfalso
            cases hdj : (cs.takeWhile notSlash).drop j with
            | nil =>
              rw [hdj, List.nil_append] at hnl
              have h7 := dropWhile_head_not hnl
              simp [notSlash] at h7
            | cons a as =>
              rw [hdj, List.cons_append] at hnl
              injection hnl with h8 h9
              subst h8
              obtain ⟨has, hrem⟩ := List.append_eq_nil.mp h9
              subst has
              have hjlt : j < (cs.takeWhile notSlash).length := by
                by_contra hge
                push_neg at hge
                rw [List.drop_eq_nil_of_le hge] at hdj
                cases hdj
              have hnone := hmax (j + 1) (Nat.lt_succ_self j) hjlt
              have hdj1 : (cs.takeWhile notSlash).drop (j + 1) = [] := by
                rw [← List.drop_drop, hdj]
                rfl
              have hsome : phAttempt "x" [] (matchLit [] (matchParts []))
                  (cs.takeWhile notSlash) (cs.dropWhile notSlash) (j + 1) ≠
                  none := by
                unfold phAttempt
                rw [hdj1, hrem]
                simp [strStarts, matchLit, matchParts]
              exact hsome hnone
        · rw [show phStep { name := "x", opt := true, ext := [] } []
              (matchParts []) (c :: cs) = none from by simp [phStep, hc]] at hps
          cases hps
    | none =>
      rw [hps] at h
      have h1 : matchLit [] (matchParts []) t = some bs := by
        simpa using h
      obtain ⟨t2, ht2, h2⟩ := matchLit_some_inv h1
      simp only [List.nil_append] at ht2
      subst ht2
      obtain ⟨ht, rfl⟩ := matchParts_nil_some h2
      rcases ht with rfl | rfl
      · exact Or.inl ⟨by simp, rfl⟩
      · exact Or.inr (Or.inl ⟨rfl, rfl⟩)

theorem searchHandlers_first_response (pre : List HFn) (h : HFn)
    (post : List HFn) (acc : Finset String) (req : Req) (path : List Char)
    (method : String) (r : Resp)
    (hpre : ∀ g ∈ pre, g req path method = .ok none ∨
      ∃ ms, g req path method = .exc (.methodNotAllowed ms))
    (hh : h req path method = .ok (some r)) :
    searchHandlers (pre ++ h :: post) acc req path method = .response r := by
  induction pre generalizing acc with
  | nil => simp [searchHandlers, hh]
  | cons g pre ih =>
    rcases hpre g (List.mem_cons_self g pre) with hg | ⟨ms, hg⟩
    · simp only [List.cons_append, searchHandlers, hg]
      exact ih _ (fun g2 hg2 => hpre g2 (List.mem_cons_of_mem g hg2))
    · simp only [List.cons_append, searchHandlers, hg]
      exact ih _ (fun g2 hg2 => hpre g2 (List.mem_cons_of_mem g hg2))

theorem searchHandlers_exhaust (hs : List HFn) (acc : Finset String)
    (req : Req) (path : List Char) (method : String)
    (hall : ∀ g ∈ hs, g req path method = .ok none ∨
      ∃ ms, g req path method = .exc (.methodNotAllowed ms)) :
    searchHandlers hs acc req path method =
      .exhausted (acc ∪ mnaUnion hs req path method) := by
  induction hs generalizing acc with
  | nil => simp [searchHandlers, mnaUnion]
  | cons g hs ih =>
    rcases hall g (List.mem_cons_self g hs) with hg | ⟨ms, hg⟩
    · simp only [searchHandlers, hg, mnaUnion]
      rw [ih _ (fun g2 hg2 => hall g2 (List.mem_cons_of_mem g hg2))]
      simp
    · simp only [searchHandlers, hg, mnaUnion]
      rw [ih _ (fun g2 hg2 => hall g2 (List.mem_cons_of_mem g hg2))]
      rw [Finset.union_assoc]

/-- Claim C1: `Application.bobo_response` tries its handlers in list
order; the first handler returning a non-`None` response determines the
result and no later handler is consulted (the result does not depend on
the handlers after it); each `MethodNotAllowed` is unioned into the
accumulator and the search continues; on exhaustion the result is a 405
response whose `Allow` header lists the sorted accumulated methods when
the accumulator is non-empty, and a 404 not-found response otherwise. -/
theorem claim_C1 :
    (∀ (pre : List HFn) (h : HFn) (post post' : List HFn) (rer : Bool)
        (req : Req) (path : List Char) (method : String) (r : Resp),
      (∀ g ∈ pre, g req path method = .ok none ∨
        ∃ ms, g req path method = .exc (.methodNotAllowed ms)) →
      h req path method = .ok (some r) →
      boboResponse ⟨pre ++ h :: post, rer⟩ req path method = .resp r ∧
      boboResponse ⟨pre ++ h :: post, rer⟩ req path method =
        boboResponse ⟨pre ++ h :: post', rer⟩ req path method) ∧
    (∀ (hs : List HFn) (rer : Bool) (req : Req) (path : List Char)
        (method : String),
      (∀ g ∈ hs, g req path method = .ok none ∨
        ∃ ms, g req path method = .exc (.methodNotAllowed ms)) →
      boboResponse ⟨hs, rer⟩ req path method =
        (if (mnaUnion hs req path method).Nonempty then
          .resp (methodNotAllowedResp method (mnaUnion hs req path method))
         else .resp (notFoundResp req method))) ∧
    (∀ (method : String) (A : Finset String),
      (methodNotAllowedResp method A).status = 405 ∧
      (methodNotAllowedResp method A).headers =
        [("Allow", String.intercalate ", "
          (A.sort (fun a b => strLe a b = true)))]) ∧
    (∀ (req : Req) (method : String), (notFoundResp req method).status = 404) := by
  refine ⟨?_, ?_, ?_, ?_⟩
  · intro pre h post post' rer req path method r hpre hh
    have h1 := searchHandlers_first_response pre h post ∅ req path method r hpre hh
    have h2 := searchHandlers_first_response pre h post' ∅ req path method r hpre hh
    constructor
    · simp [boboResponse, h1]
    · simp [boboResponse, h1, h2]
  · intro hs rer req path method hall
    have h1 := searchHandlers_exhaust hs ∅ req path method hall
    rw [Finset.empty_union] at h1
    by_cases hne : (mnaUnion hs req path method).Nonempty
    · simp [boboResponse, h1, hne]
    · simp [boboResponse, h1, hne]
  · exact fun method A => ⟨rfl, rfl⟩
  · exact fun req method => rfl

/-- Witness for C1 at concrete handler lists. -/
theorem claim_C1_witness :
    ((∀ g ∈ [hNone, hGetOnly], g emptyReq [] "PUT" = .ok none ∨
        ∃ ms, g emptyReq [] "PUT" = .exc (.methodNotAllowed ms)) ∧
      hOk emptyReq [] "PUT" = .ok (some okResp) ∧
      boboResponse ⟨[hNone, hGetOnly] ++ hOk :: [hBoom], false⟩
        emptyReq [] "PUT" = .resp okResp) ∧
    ((∀ g ∈ [hGetOnly, hPostOnly], g emptyReq [] "PUT" = .ok none ∨
        ∃ ms, g emptyReq [] "PUT" = .exc (.methodNotAllowed ms)) ∧
      boboResponse ⟨[hGetOnly, hPostOnly], false⟩ emptyReq [] "PUT" =
        (if (mnaUnion [hGetOnly, hPostOnly] emptyReq [] "PUT").Nonempty then
          .resp (methodNotAllowedResp "PUT"
            (mnaUnion [hGetOnly, hPostOnly] emptyReq [] "PUT"))
         else .resp (notFoundResp emptyReq "PUT"))) := by
  have hyp1 : ∀ g ∈ [hNone, hGetOnly], g emptyReq [] "PUT" = .ok none ∨
      ∃ ms, g emptyReq [] "PUT" = .exc (.methodNotAllowed ms) := by
    intro g hg
    fin_cases hg
    · exact Or.inl rfl
    · exact Or.inr ⟨["GET"], rfl⟩
  have hyp2 : ∀ g ∈ [hGetOnly, hPostOnly], g emptyReq [] "PUT" = .ok none ∨
      ∃ ms, g emptyReq [] "PUT" = .exc (.methodNotAllowed ms) := by
    intro g hg
    fin_cases hg
    · exact Or.inr ⟨["GET"], rfl⟩
    · exact Or.inr ⟨["POST"], rfl⟩
  exact ⟨⟨hyp1, rfl,
      (claim_C1.1 [hNone, hGetOnly] hOk [hBoom] [hBoom] false emptyReq []
        "PUT" okResp hyp1 rfl).1⟩,
    ⟨hyp2, claim_C1.2.1 [hGetOnly, hPostOnly] false emptyReq [] "PUT" hyp2⟩⟩

theorem handlerBoboResponse_no_match (node : HandlerNode) (req : Req)
    (path : List Char) (method : String)
    (h : matchRoute node.route path = none) :
    handlerBoboResponse node req path method = .ok none := by
  unfold handlerBoboResponse nodeMatch
  cases hm : node.methods with
  | none => simp [h]
  | some ms => simp [h]

/-- Claim C2: for a method-keyed group built from `/x` handlers for GET
and POST, a GET request dispatches to the GET handler (whatever the POST
entry is) and vice versa; a PUT to `/x` raises `MethodNotAllowed` with
the group's methods, aggregated at the top level into a 405 response;
and a request whose path does not match the group's route (the compiled
matcher returns `None` — note the `$` anchor also accepts `/x` with a
single trailing newline) yields `None` from the group. -/
theorem claim_C2 :
    (∀ (g p : HFn) (req : Req) (path : List Char),
      makeBrFunctionByMethods routeX [(some "GET", g), (some "POST", p)]
        req path "GET" = g req path "GET" ∧
      makeBrFunctionByMethods routeX [(some "GET", g), (some "POST", p)]
        req path "POST" = p req path "POST") ∧
    (∀ (g p : HFn) (req : Req),
      makeBrFunctionByMethods routeX [(some "GET", g), (some "POST", p)]
        req "/x".data "PUT" = .exc (.methodNotAllowed ["GET", "POST"])) ∧
    (∀ (rer : Bool) (g p : HFn) (req : Req),
      boboResponse ⟨[makeBrFunctionByMethods routeX
          [(some "GET", g), (some "POST", p)]], rer⟩ req "/x".data "PUT" =
        .resp (methodNotAllowedResp "PUT" {"GET", "POST"})) ∧
    (∀ (hg hp : Req → RouteData → HandlerOutcome) (req : Req)
        (path : List Char) (method : String),
      matchRoute routeX path = none →
      makeBrFunctionByMethods routeX
        [(some "GET", handlerBoboResponse ⟨routeX, some ["GET"], hg⟩),
         (some "POST", handlerBoboResponse ⟨routeX, some ["POST"], hp⟩)]
        req path method = .ok none) := by
  have key : ∀ (g p : HFn) (req : Req),
      makeBrFunctionByMethods routeX [(some "GET", g), (some "POST", p)]
        req "/x".data "PUT" = .exc (.methodNotAllowed ["GET", "POST"]) :=
    fun g p req => rfl
  refine ⟨fun g p req path => ⟨rfl, rfl⟩, key, ?_, ?_⟩
  · intro rer g p req
    have hall : ∀ g2 ∈ [makeBrFunctionByMethods routeX
        [(some "GET", g), (some "POST", p)]],
        g2 req "/x".data "PUT" = .ok none ∨
        ∃ ms, g2 req "/x".data "PUT" = .exc (.methodNotAllowed ms) := by
      intro g2 hg2
      rw [List.mem_singleton] at hg2
      subst hg2
      exact Or.inr ⟨["GET", "POST"], key g p req⟩
    have h1 := searchHandlers_exhaust _ ∅ req "/x".data "PUT" hall
    have hmna : mnaUnion [makeBrFunctionByMethods routeX
        [(some "GET", g), (some "POST", p)]] req "/x".data "PUT" =
        ({"GET", "POST"} : Finset String) := by
      rw [show mnaUnion [makeBrFunctionByMethods routeX
          [(some "GET", g), (some "POST", p)]] req "/x".data "PUT" =
          (match makeBrFunctionByMethods routeX
              [(some "GET", g), (some "POST", p)] req "/x".data "PUT" with
           | .exc (.methodNotAllowed ms) => ms.toFinset
           | _ => (∅ : Finset String)) ∪
            mnaUnion [] req "/x".data "PUT" from rfl]
      rw [key g p req]
      show (["GET", "POST"] : List String).toFinset ∪ ∅ = {"GET", "POST"}
      decide
    rw [hmna] at h1
    simp only [boboResponse, h1, Finset.empty_union]
    simp [Finset.insert_nonempty]
  · intro hg hp req path method hroute
    by_cases hmg : method = "GET"
    · subst hmg
      rw [show makeBrFunctionByMethods routeX
          [(some "GET", handlerBoboResponse ⟨routeX, some ["GET"], hg⟩),
           (some "POST", handlerBoboResponse ⟨routeX, some ["POST"], hp⟩)]
          req path "GET" =
          handlerBoboResponse ⟨routeX, some ["GET"], hg⟩ req path "GET"
          from rfl]
      exact handlerBoboResponse_no_match _ req path "GET" hroute
    · by_cases hmp : method = "POST"
      · subst hmp
        rw [show makeBrFunctionByMethods routeX
            [(some "GET", handlerBoboResponse ⟨routeX, some ["GET"], hg⟩),
             (some "POST", handlerBoboResponse ⟨routeX, some ["POST"], hp⟩)]
            req path "POST" =
            handlerBoboResponse ⟨routeX, some ["POST"], hp⟩ req path "POST"
            from rfl]
        exact handlerBoboResponse_no_match _ req path "POST" hroute
      · have hg1 : ((some "GET" : Option String) == some method) = false := by
          simp only [beq_eq_false_iff_ne]
          exact fun h => hmg (Option.some_inj.mp h).symm
        have hp1 : ((some "POST" : Option String) == some method) = false := by
          simp only [beq_eq_false_iff_ne]
          exact fun h => hmp (Option.some_inj.mp h).symm
        unfold makeBrFunctionByMethods dictGet
        simp only [List.find?, hg1, hp1]
        simp [hroute]

/-- Witness for C2 at a concrete non-matching path and method. -/
theorem claim_C2_witness :
    (matchRoute routeX "/y".data = none) ∧
    makeBrFunctionByMethods routeX
      [(some "GET", handlerBoboResponse
          ⟨routeX, some ["GET"], fun _ _ => .ok none⟩),
       (some "POST", handlerBoboResponse
          ⟨routeX, some ["POST"], fun _ _ => .ok none⟩)]
      emptyReq "/y".data "PUT" = .ok none :=
  ⟨by decide, claim_C2.2.2.2 (fun _ _ => .ok none) (fun _ _ => .ok none)
    emptyReq "/y".data "PUT" (by decide)⟩

/-- Witness for C4: the characterization applied at the concrete path
`/a/foo`. -/
theorem claim_C4_witness :
    matchRoute routeAX "/a/foo".data = some [("x", "foo")] ∧
    (("/a/foo".data = "/a".data ∧ [("x", ("foo" : String))] = []) ∨
      ("/a/foo".data = "/a".data ++ ['\n'] ∧ [("x", ("foo" : String))] = []) ∨
      ∃ v : List Char, '/' ∉ v ∧ "/a/foo".data = "/a".data ++ '/' :: v ∧
        [("x", ("foo" : String))] = [("x", String.mk v)]) :=
  ⟨by decide, claim_C4.2.2 "/a/foo".data [("x", "foo")] (by decide)⟩

/-- Claim C5: parameter binding precedence — `bobo_request` is always
bound to the request; otherwise the route-extracted value wins, then the
form/query source of the binder's mode (single value unwrapped, several
passed as a sequence), then the parsed JSON body when the content type
is `application/json`; in particular, for route `/:a` and a POST to `/3`
with body `a=5`, the argument `a` binds to `"3"`. -/
theorem claim_C5 :
    (∀ (mode : ParamMode) (req : Req) (routeData : RouteData)
        (required : Bool),
      bindParam mode req routeData "bobo_request" required =
        .ok (some ("bobo_request", .request))) ∧
    (∀ (mode : ParamMode) (req : Req) (routeData : RouteData)
        (name : String) (required : Bool) (v : String),
      name ≠ "bobo_request" → lookupStr routeData name = some v →
      bindParam mode req routeData name required =
        .ok (some (name, .str v))) ∧
    (∀ (mode : ParamMode) (req : Req) (routeData : RouteData)
        (name : String) (required : Bool) (v : String),
      name ≠ "bobo_request" → lookupStr routeData name = none →
      getAll (paramSource mode req) name = [v] →
      bindParam mode req routeData name required =
        .ok (some (name, .str v))) ∧
    (∀ (mode : ParamMode) (req : Req) (routeData : RouteData)
        (name : String) (required : Bool) (vs : List String),
      name ≠ "bobo_request" → lookupStr routeData name = none →
      getAll (paramSource mode req) name = vs → 2 ≤ vs.length →
      bindParam mode req routeData name required =
        .ok (some (name, .strs vs))) ∧
    (∀ (mode : ParamMode) (req : Req) (routeData : RouteData)
        (name : String) (required : Bool) (jv : Json),
      name ≠ "bobo_request" → lookupStr routeData name = none →
      getAll (paramSource mode req) name = [] →
      req.contentType = "application/json" →
      lookupJson req.jsonBody name = some jv →
      bindParam mode req routeData name required =
        .ok (some (name, .json jv))) ∧
    (matchRoute routeColonA "/3".data = some [("a", "3")] ∧
      boboApply ⟨["a"], 0⟩ .postOnly postA5Req [("a", "3")] =
        .ok [("a", .str "3")]) := by
  refine ⟨fun mode req routeData required => rfl, ?_, ?_, ?_, ?_,
    by decide, rfl⟩
  · intro mode req routeData name required v hname hlook
    simp [bindParam, hname, hlook]
  · intro mode req routeData name required v hname hlook hget
    simp [bindParam, hname, hlook, hget]
  · intro mode req routeData name required vs hname hlook hget hlen
    match vs, hlen with
    | v1 :: v2 :: rest, _ =>
      simp [bindParam, hname, hlook, hget]
  · intro mode req routeData name required jv hname hlook hget hct hjson
    simp [bindParam, hname, hlook, hget, hct, hjson]

/-- Witness for C5: route value wins over the POST body value at the
concrete request. -/
theorem claim_C5_witness :
    (("a" : String) ≠ "bobo_request" ∧
      lookupStr [("a", "3")] "a" = some "3" ∧
      bindParam .postOnly postA5Req [("a", "3")] "a" true =
        .ok (some ("a", .str "3"))) :=
  ⟨by decide, rfl,
    claim_C5.2.1 .postOnly postA5Req [("a", "3")] "a" true "3" (by decide) rfl⟩

/-- Counterexample for C6 as stated: for a `HEAD` request the rendered
403 response has an empty body (the default error hook suppresses bodies
for HEAD), so the body does not contain the parameter name. -/
theorem claim_C6_counterexample :
    boboResponse ⟨[fun _ _ _ => .exc (.missingFormVariable "b")], false⟩
      emptyReq [] "HEAD" =
      .resp { status := 403, contentType := "text/html; charset=UTF-8",
              headers := [], body := .empty } ∧
    (missingFormVariableResp "HEAD" "b").body = .empty :=
  ⟨rfl, rfl⟩

/-- Claim C6 (amended: the body contains the parameter name for non-HEAD
requests; HEAD responses have their body suppressed): a required
parameter `b` with no value from route, form/query, or JSON body raises
`MissingFormVariable("b")`, never a silent default; the dispatcher
renders it as a 403 whose body contains the name (when the method is not
HEAD); a parameter with a default is omitted from the call instead. -/
theorem claim_C6 :
    (∀ (mode : ParamMode) (req : Req) (routeData : RouteData),
      lookupStr routeData "b" = none →
      getAll (paramSource mode req) "b" = [] →
      (req.contentType = "application/json" →
        lookupJson req.jsonBody "b" = none) →
      boboApply ⟨["b"], 0⟩ mode req routeData =
        .error (.missingFormVariable "b") ∧
      boboApply ⟨["b"], 1⟩ mode req routeData = .ok []) ∧
    (∀ (rer : Bool) (req : Req) (path : List Char) (method name : String)
        (post : List HFn),
      boboResponse
        ⟨(fun _ _ _ => .exc (.missingFormVariable name)) :: post, rer⟩
        req path method = .resp (missingFormVariableResp method name)) ∧
    (∀ (name method : String), method ≠ "HEAD" →
      (missingFormVariableResp method name).status = 403 ∧
      ∃ s1 s2, (missingFormVariableResp method name).body =
        .text (s1 ++ name ++ s2)) := by
  refine ⟨?_, ?_, ?_⟩
  · intro mode req routeData hlook hget hjson
    constructor
    · show bindArgs mode req routeData ["b"] 0 (1 - 0) =
        .error (.missingFormVariable "b")
      by_cases hct : req.contentType = "application/json"
      · simp [bindArgs, bindParam, hlook, hget, hct, hjson hct]
      · simp [bindArgs, bindParam, hlook, hget, hct]
    · show bindArgs mode req routeData ["b"] 0 (1 - 1) = .ok []
      by_cases hct : req.contentType = "application/json"
      · simp [bindArgs, bindParam, hlook, hget, hct, hjson hct]
      · simp [bindArgs, bindParam, hlook, hget, hct]
  · intro rer req path method name post
    simp [boboResponse, searchHandlers]
  · intro name method hm
    refine ⟨rfl,
      "<html>\n<head><title>Missing parameter</title></head>\n<body>Missing form variable ",
      "</body>\n</html>\n", ?_⟩
    simp only [missingFormVariableResp, errResponse, if_neg hm]
    rfl

/-- Witness for C6 at a concrete empty request. -/
theorem claim_C6_witness :
    (lookupStr ([] : RouteData) "b" = none ∧
      getAll (paramSource .postOnly emptyReq) "b" = [] ∧
      boboApply ⟨["b"], 0⟩ .postOnly emptyReq [] =
        .error (.missingFormVariable "b") ∧
      boboApply ⟨["b"], 1⟩ .postOnly emptyReq [] = .ok []) ∧
    (("GET" : String) ≠ "HEAD" ∧
      (missingFormVariableResp "GET" "b").status = 403 ∧
      ∃ s1 s2, (missingFormVariableResp "GET" "b").body =
        .text (s1 ++ "b" ++ s2)) := by
  have h6 := claim_C6.1 .postOnly emptyReq [] rfl rfl
    (fun h => absurd h (by decide))
  have h3 := claim_C6.2.2 "b" "GET" (by decide)
  exact ⟨⟨rfl, rfl, h6.1, h6.2⟩, ⟨by decide, h3.1, h3.2⟩⟩

/-- Counterexample for C7 as stated: with exception catching enabled
(`reraise_exceptions = false`) but `x-wsgiorg.throw_errors` set in the
request environ, an application exception is re-raised, not rendered via
the exception hook. -/
theorem claim_C7_counterexample :
    boboResponse ⟨[hBoom], false⟩ throwReq [] "GET" =
      .raised (.otherError "boom") ∧
    boboResponse ⟨[hBoom], false⟩ throwReq [] "GET" ≠
      .resp (exceptionResp "GET") := by
  refine ⟨rfl, ?_⟩
  intro h
  rw [show boboResponse ⟨[hBoom], false⟩ throwReq [] "GET" =
    .raised (.otherError "boom") from rfl] at h
  exact BoboResult.noConfusion h

/-- Claim C7 (amended: rendering additionally requires that the request
environ does not set `x-wsgiorg.throw_errors`): the fatal signals
KeyboardInterrupt, SystemExit and MemoryError are always re-raised
regardless of the exception-handling setting; any other uncaught
application exception is rendered by the exception hook when catching is
enabled and the environ flag is unset, and re-raised when catching is
disabled or the environ flag is set. -/
theorem claim_C7 (app : App) (req : Req) (path : List Char)
    (method : String) (e : Exc)
    (hs : searchHandlers app.handlers ∅ req path method = .raised e) :
    ((e = .keyboardInterrupt ∨ e = .systemExit ∨ e = .memoryError) →
      boboResponse app req path method = .raised e) ∧
    (∀ info, e = .otherError info →
      (app.reraiseExceptions = false → req.throwErrors = false →
        boboResponse app req path method = .resp (exceptionResp method)) ∧
      (app.reraiseExceptions = true ∨ req.throwErrors = true →
        boboResponse app req path method = .raised e)) := by
  constructor
  · rintro (rfl | rfl | rfl) <;> simp [boboResponse, hs]
  · rintro info rfl
    constructor
    · intro h1 h2
      simp [boboResponse, hs, h1, h2]
    · rintro (h1 | h1) <;> simp [boboResponse, hs, h1]

/-- Witness for C7: a fatal signal propagates; a plain exception is
rendered as a 500 when catching is on and the environ flag is unset. -/
theorem claim_C7_witness :
    searchHandlers [fun _ _ _ => .exc .memoryError] ∅ emptyReq [] "GET" =
      .raised .memoryError ∧
    boboResponse ⟨[fun _ _ _ => .exc .memoryError], false⟩ emptyReq []
      "GET" = .raised .memoryError ∧
    searchHandlers [hBoom] ∅ emptyReq [] "GET" =
      .raised (.otherError "boom") ∧
    boboResponse ⟨[hBoom], false⟩ emptyReq [] "GET" =
      .resp (exceptionResp "GET") := by
  refine ⟨rfl, ?_, rfl, ?_⟩
  · exact (claim_C7 ⟨[fun _ _ _ => .exc .memoryError], false⟩ emptyReq []
      "GET" .memoryError rfl).1 (Or.inr (Or.inr rfl))
  · exact ((claim_C7 ⟨[hBoom], false⟩ emptyReq [] "GET"
      (.otherError "boom") rfl).2 "boom" rfl).1 rfl rfl

/-- Claim C9: a handler return value with `__call__` is returned as-is
(when the check does not short-circuit); any other value is raised as
`BoboException(200, value, content_type)`; `build_response` turns that
into a response with the same status and content type, encoding text
bodies, passing binary through, serializing for JSON content types,
raising `TypeError` for any other body type, and suppressing the body
for HEAD requests. -/
theorem claim_C9 :
    (∀ (func : Req → RouteData → FuncResult)
        (check : Option (Req → Option Resp)) (ct : String) (req : Req)
        (routeData : RouteData),
      (check = none ∨ ∃ c, check = some c ∧ c req = none) →
      (∀ r, func req routeData = .responder r →
        makeBoboHandle func check ct req routeData = .ok (some r)) ∧
      (∀ b, func req routeData = .data b →
        makeBoboHandle func check ct req routeData =
          .exc (.boboException 200 b ct []))) ∧
    (∀ (method : String) (st : Nat) (ct : String)
        (hdrs : List (String × String)),
      (∀ s, method ≠ "HEAD" →
        buildResponse method st (.text s) ct hdrs =
          .ok ⟨st, ct, hdrs, .text s⟩) ∧
      (∀ bs, method ≠ "HEAD" →
        buildResponse method st (.binary bs) ct hdrs =
          .ok ⟨st, ct, hdrs, .binary bs⟩) ∧
      (∀ v, method ≠ "HEAD" → jsonContentType ct = true →
        buildResponse method st (.json v) ct hdrs =
          .ok ⟨st, ct, hdrs, .jsonText (Json.dumps v)⟩) ∧
      (∀ v, method ≠ "HEAD" → jsonContentType ct = false →
        buildResponse method st (.json v) ct hdrs = .error ()) ∧
      (∀ b, buildResponse "HEAD" st b ct hdrs =
        .ok ⟨st, ct, hdrs, .empty⟩)) ∧
    (∀ (r : Resp) (method : String) (st : Nat) (b : Body) (ct : String)
        (hdrs : List (String × String)),
      buildResponse method st b ct hdrs = .ok r →
      r.status = st ∧ r.contentType = ct) ∧
    (∀ (rer : Bool) (req : Req) (path : List Char) (method : String)
        (post : List HFn) (b : Body) (ct : String),
      boboResponse
        ⟨(fun _ _ _ => .exc (.boboException 200 b ct [])) :: post, rer⟩
        req path method =
        (match buildResponse method 200 b ct [] with
         | .ok r => .resp r
         | .error _ => .raised .typeError)) := by
  refine ⟨?_, ?_, ?_, ?_⟩
  · intro func check ct req routeData hcheck
    constructor
    · intro r hf
      rcases hcheck with rfl | ⟨c, rfl, hc⟩
      · simp [makeBoboHandle, runHandlerFunc, hf]
      · simp [makeBoboHandle, runHandlerFunc, hc, hf]
    · intro b hf
      rcases hcheck with rfl | ⟨c, rfl, hc⟩
      · simp [makeBoboHandle, runHandlerFunc, hf]
      · simp [makeBoboHandle, runHandlerFunc, hc, hf]
  · intro method st ct hdrs
    refine ⟨?_, ?_, ?_, ?_, ?_⟩
    · intro s hm; simp [buildResponse, hm]
    · intro bs hm; simp [buildResponse, hm]
    · intro v hm hj; simp [buildResponse, hm, hj]
    · intro v hm hj; simp [buildResponse, hm, hj]
    · intro b; simp [buildResponse]
  · intro r method st b ct hdrs h
    unfold buildResponse at h
    by_cases hm : method = "HEAD"
    · rw [if_pos hm] at h
      cases h
      exact ⟨rfl, rfl⟩
    · rw [if_neg hm] at h
      cases b with
      | text s => cases h; exact ⟨rfl, rfl⟩
      | binary bs => cases h; exact ⟨rfl, rfl⟩
      | json v =>
        dsimp only at h
        by_cases hj : jsonContentType ct = true
        · rw [if_pos hj] at h
          cases h
          exact ⟨rfl, rfl⟩
        · rw [if_neg hj] at h
          cases h
  · intro rer req path method post b ct
    simp only [boboResponse, searchHandlers]

/-- Witness for C9 at concrete values. -/
theorem claim_C9_witness :
    makeBoboHandle (fun _ _ => .data (.text "x")) none "text/html" emptyReq
      [] = .exc (.boboException 200 (.text "x") "text/html" []) ∧
    (("GET" : String) ≠ "HEAD" ∧
      buildResponse "GET" 200 (.text "hi") "text/html" [] =
        .ok ⟨200, "text/html", [], .text "hi"⟩) ∧
    (jsonContentType "text/html" = false ∧
      buildResponse "GET" 200 (.json .null) "text/html" [] = .error ()) := by
  refine ⟨?_, ⟨by decide, ?_⟩, ⟨rfl, ?_⟩⟩
  · exact (claim_C9.1 (fun _ _ => .data (.text "x")) none "text/html"
      emptyReq [] (Or.inl rfl)).2 (.text "x") rfl
  · exact (claim_C9.2.1 "GET" 200 "text/html" []).1 "hi" (by decide)
  · exact (claim_C9.2.1 "GET" 200 "text/html" []).2.2.2.1 .null (by decide)
      rfl

theorem traceValuesFrom_mem {calls : List CallKind} {c : Nat}
    {p : CallKind × Int} (hp : p ∈ traceValuesFrom calls c) :
    ∃ k, c < k ∧ k ≤ c + calls.length ∧ p.2 = callValue p.1 k := by
  induction calls generalizing c with
  | nil => cases hp
  | cons kd ks ih =>
    rcases List.mem_cons.mp hp with rfl | hmem
    · exact ⟨c + 1, Nat.lt_succ_self c, by simp, rfl⟩
    · obtain ⟨k, hk1, hk2, hv⟩ := ih hmem
      exact ⟨k, Nat.lt_of_succ_lt hk1, by simp [List.length_cons]; omega, hv⟩

/-- Claim C8: with fewer than `2^99` total counter increments, every
`late()` key exceeds every `order()` or `early()` key, every `early()`
key is below every `order()` or `late()` key, and in the stable sort by
key every late-keyed entry comes strictly after every entry that is not
late-keyed. -/
theorem claim_C8 (calls : List CallKind) (hn : calls.length < 2 ^ 99) :
    (∀ p ∈ traceValues calls, ∀ q ∈ traceValues calls,
      (p.1 = .late → q.1 ≠ .late → q.2 < p.2) ∧
      (p.1 = .early → q.1 ≠ .early → p.2 < q.2)) ∧
    (∀ (i j : Nat) (hi : i < (sortedTrace calls).length)
        (hj : j < (sortedTrace calls).length),
      ((sortedTrace calls).get ⟨i, hi⟩).1 = .late →
      ((sortedTrace calls).get ⟨j, hj⟩).1 ≠ .late → j < i) := by
  have hLn : (calls.length : Int) < lateBase := by
    unfold lateBase
    exact_mod_cast hn
  have main : ∀ p ∈ traceValues calls, ∀ q ∈ traceValues calls,
      (p.1 = .late → q.1 ≠ .late → q.2 < p.2) ∧
      (p.1 = .early → q.1 ≠ .early → p.2 < q.2) := by
    intro p hp q hq
    obtain ⟨kp, hkp1, hkp2, hvp⟩ := traceValuesFrom_mem hp
    obtain ⟨kq, hkq1, hkq2, hvq⟩ := traceValuesFrom_mem hq
    simp only [Nat.zero_add] at hkp2 hkq2
    constructor
    · intro hpl hql
      rw [hvp, hvq, hpl]
      cases hq1 : q.1 with
      | late => exact absurd hq1 hql
      | ord =>
        show (kq : Int) < kp + lateBase
        have h1 : (kq : Int) ≤ calls.length := by exact_mod_cast hkq2
        have h2 : (1 : Int) ≤ kp := by exact_mod_cast hkp1
        omega
      | early =>
        show (kq : Int) - lateBase < kp + lateBase
        have h1 : (kq : Int) ≤ calls.length := by exact_mod_cast hkq2
        have h2 : (1 : Int) ≤ kp := by exact_mod_cast hkp1
        omega
    · intro hpe hqe
      rw [hvp, hvq, hpe]
      cases hq1 : q.1 with
      | early => exact absurd hq1 hqe
      | ord =>
        show (kp : Int) - lateBase < kq
        have h1 : (kp : Int) ≤ calls.length := by exact_mod_cast hkp2
        have h2 : (1 : Int) ≤ kq := by exact_mod_cast hkq1
        omega
      | late =>
        show (kp : Int) - lateBase < kq + lateBase
        have h1 : (kp : Int) ≤ calls.length := by exact_mod_cast hkp2
        have h2 : (1 : Int) ≤ kq := by exact_mod_cast hkq1
        omega
  refine ⟨main, ?_⟩
  intro i j hi hj hilate hjnot
  have hsorted : List.Sorted (fun a b : CallKind × Int => a.2 ≤ b.2)
      (sortedTrace calls) :=
    List.sorted_insertionSort _ _
  have hperm : List.Perm (sortedTrace calls) (traceValues calls) :=
    List.perm_insertionSort _ _
  have hmi : (sortedTrace calls).get ⟨i, hi⟩ ∈ traceValues calls :=
    hperm.mem_iff.mp (List.get_mem _ _ hi)
  have hmj : (sortedTrace calls).get ⟨j, hj⟩ ∈ traceValues calls :=
    hperm.mem_iff.mp (List.get_mem _ _ hj)
  by_contra hij
  push_neg at hij
  rcases Nat.lt_or_ge i j with hlt | hge
  · have hle : ((sortedTrace calls).get ⟨i, hi⟩).2 ≤
        ((sortedTrace calls).get ⟨j, hj⟩).2 :=
      List.pairwise_iff_get.mp hsorted ⟨i, hi⟩ ⟨j, hj⟩ hlt
    have hgt := (main _ hmi _ hmj).1 hilate hjnot
    omega
  · have heq : i = j := le_antisymm hij hge
    subst heq
    exact hjnot hilate

/-- Witness for C8 at a concrete call trace. -/
theorem claim_C8_witness :
    ([CallKind.ord, CallKind.late, CallKind.early].length < 2 ^ 99) ∧
    ((∀ p ∈ traceValues [CallKind.ord, CallKind.late, CallKind.early],
      ∀ q ∈ traceValues [CallKind.ord, CallKind.late, CallKind.early],
      (p.1 = .late → q.1 ≠ .late → q.2 < p.2) ∧
      (p.1 = .early → q.1 ≠ .early → p.2 < q.2)) ∧
    (∀ (i j : Nat)
        (hi : i < (sortedTrace [CallKind.ord, CallKind.late,
          CallKind.early]).length)
        (hj : j < (sortedTrace [CallKind.ord, CallKind.late,
          CallKind.early]).length),
      ((sortedTrace [CallKind.ord, CallKind.late, CallKind.early]).get
        ⟨i, hi⟩).1 = .late →
      ((sortedTrace [CallKind.ord, CallKind.late, CallKind.early]).get
        ⟨j, hj⟩).1 ≠ .late → j < i)) :=
  ⟨by decide, claim_C8 [CallKind.ord, CallKind.late, CallKind.early]
    (by decide)⟩

/-! Helper lemmas for the route round-trip (claim C3). -/

theorem takeWhile_noSlash_append {a : List Char} (b : List Char)
    (h : '/' ∉ a) :
    (a ++ b).takeWhile notSlash = a ++ b.takeWhile notSlash := by
  induction a with
  | nil => simp
  | cons c cs ih =>
    have hc : notSlash c = true := by
      simp only [notSlash, bne_iff_ne, ne_eq]
      intro hcc
      exact h (by rw [hcc]; exact List.mem_cons_self _ _)
    have h2 : '/' ∉ cs := fun hm => h (List.mem_cons_of_mem _ hm)
    simp [List.takeWhile_cons, hc, ih h2]

theorem dropWhile_noSlash_append {a : List Char} (b : List Char)
    (h : '/' ∉ a) :
    (a ++ b).dropWhile notSlash = b.dropWhile notSlash := by
  induction a with
  | nil => simp
  | cons c cs ih =>
    have hc : notSlash c = true := by
      simp only [notSlash, bne_iff_ne, ne_eq]
      intro hcc
      exact h (by rw [hcc]; exact List.mem_cons_self _ _)
    have h2 : '/' ∉ cs := fun hm => h (List.mem_cons_of_mem _ hm)
    simp [List.dropWhile_cons, hc, ih h2]

theorem findIdx_slash_append_of_not_mem {a : List Char} (b : List Char)
    (h : '/' ∉ a) :
    (a ++ b).findIdx isSlash = a.length + b.findIdx isSlash := by
  induction a with
  | nil => simp
  | cons c cs ih =>
    have hc : isSlash c = false := by
      simp only [isSlash, beq_eq_false_iff_ne, ne_eq]
      intro hcc
      exact h (by rw [hcc]; exact List.mem_cons_self _ _)
    have h2 : '/' ∉ cs := fun hm => h (List.mem_cons_of_mem _ hm)
    simp [List.findIdx_cons, hc, ih h2]
    omega

theorem findIdx_slash_append_of_mem {a : List Char} (b : List Char)
    (h : '/' ∈ a) :
    (a ++ b).findIdx isSlash = a.findIdx isSlash := by
  induction a with
  | nil => cases h
  | cons c cs ih =>
    by_cases hc : c = '/'
    · subst hc
      simp [List.findIdx_cons, isSlash]
    · have hcf : isSlash c = false := by
        simp only [isSlash, beq_eq_false_iff_ne, ne_eq]
        exact fun hcc => hc hcc
      have h2 : '/' ∈ cs := by
        rcases List.mem_cons.mp h with heq | hm
        · exact absurd heq.symm hc
        · exact hm
      simp [List.findIdx_cons, hcf, ih h2]

theorem not_mem_slash_append {a b : List Char} (ha : '/' ∉ a)
    (hb : '/' ∉ b) : '/' ∉ a ++ b := by
  intro h
  rcases List.mem_append.mp h with h2 | h2
  · exact ha h2
  · exact hb h2

theorem tryLen_hit {name : String} {ext : List Char}
    {cont : List Char → Option RouteData} {run rem : List Char} {k0 : Nat}
    {r : RouteData} (h : phAttempt name ext cont run rem k0 = some r) :
    tryLen name ext cont run rem k0 = some r := by
  cases k0 with
  | zero => exact h
  | succ k => rw [tryLen, h]

theorem tryLen_stable {name : String} {ext : List Char}
    {cont : List Char → Option RouteData} {run rem : List Char}
    {k0 k : Nat} (hk : k0 ≤ k)
    (hover : ∀ j, k0 < j → j ≤ k →
      phAttempt name ext cont run rem j = none) :
    tryLen name ext cont run rem k = tryLen name ext cont run rem k0 := by
  induction k with
  | zero =>
    have h0 : k0 = 0 := Nat.le_zero.mp hk
    rw [h0]
  | succ k ih =>
    rcases Nat.eq_or_lt_of_le hk with heq | hlt
    · rw [heq]
    · have hk2 : k0 ≤ k := Nat.lt_succ_iff.mp hlt
      have hA : phAttempt name ext cont run rem (k + 1) = none :=
        hover (k + 1) hlt (Nat.le_refl _)
      rw [tryLen, hA]
      exact ih hk2 (fun j hj1 hj2 => hover j hj1 (Nat.le_succ_of_le hj2))

/-- Key backtracking lemma: at a placeholder, the greedy engine cannot
bind a strictly longer slash-free capture than the substituted value —
any longer candidate makes the rest of the pattern unmatchable, because
the first slash of the remaining path would be displaced. -/
theorem no_overshoot {w ext sep z P : List Char}
    {ps : List (Placeholder × List Char)} {vals : List String}
    (hw : w ≠ []) (hwn : '/' ∉ w) (hext : '/' ∉ ext)
    (hlen : vals.length = ps.length)
    (hP : substParts ps vals = P)
    (heq : w ++ (ext ++ (sep ++ z)) = ext ++ (sep ++ P)) : False := by
  have hwlen : 0 < w.length := List.length_pos.mpr hw
  cases ps with
  | nil =>
    have hP0 : P = [] := by rw [← hP]; rfl
    subst hP0
    have hl := congrArg List.length heq
    simp only [List.length_append, List.length_nil] at hl
    omega
  | cons pr ps2 =>
    cases vals with
    | nil => simp at hlen
    | cons v vs =>
      obtain ⟨Q, rfl⟩ : ∃ Q, P = '/' :: Q :=
        ⟨_, by rw [← hP]; rfl⟩
      have hfi := congrArg (fun l => l.findIdx isSlash) heq
      simp only at hfi
      rw [findIdx_slash_append_of_not_mem (ext ++ (sep ++ z)) hwn,
        findIdx_slash_append_of_not_mem (sep ++ z) hext,
        findIdx_slash_append_of_not_mem (sep ++ ('/' :: Q)) hext] at hfi
      by_cases hsep : '/' ∈ sep
      · rw [findIdx_slash_append_of_mem z hsep,
          findIdx_slash_append_of_mem ('/' :: Q) hsep] at hfi
        omega
      · rw [findIdx_slash_append_of_not_mem z hsep,
          findIdx_slash_append_of_not_mem ('/' :: Q) hsep] at hfi
        have h0 : ('/' :: Q).findIdx isSlash = 0 := by
          simp [List.findIdx_cons, isSlash]
        rw [h0] at hfi
        omega

/-- The greedy scan over candidate capture lengths settles on exactly the
substituted value: every longer candidate fails (`no_overshoot`) and the
candidate of the value's own length succeeds. -/
theorem tryLen_core (name : String) (ext sep : List Char)
    (ps : List (Placeholder × List Char)) (vals : List String)
    (v : String) (rs : RouteData) (T D : List Char)
    (hext : '/' ∉ ext) (hT : '/' ∉ T)
    (hTD : T ++ D = sep ++ substParts ps vals)
    (hlen : vals.length = ps.length)
    (hcont : matchParts ps (substParts ps vals) = some rs) :
    tryLen name ext (matchLit sep (matchParts ps))
      (v.data ++ (ext ++ T)) D (v.data ++ (ext ++ T)).length =
      some ((name, String.mk v.data) :: rs) := by
  have hhit : phAttempt name ext (matchLit sep (matchParts ps))
      (v.data ++ (ext ++ T)) D v.data.length =
      some ((name, String.mk v.data) :: rs) := by
    unfold phAttempt
    rw [List.drop_left, List.append_assoc, hTD, strStarts_append, if_pos rfl,
      List.drop_left, matchLit_cont, hcont, Option.map_some', List.take_left]
  have hover : ∀ j, v.data.length < j →
      j ≤ (v.data ++ (ext ++ T)).length →
      phAttempt name ext (matchLit sep (matchParts ps))
        (v.data ++ (ext ++ T)) D j = none := by
    intro j hj1 hj2
    by_contra hsome
    obtain ⟨ro, hAtt⟩ := Option.ne_none_iff_exists'.mp hsome
    obtain ⟨hE, r2, hc, -⟩ := phAttempt_some_inv hAtt
    obtain ⟨d, rfl⟩ : ∃ d, j = v.data.length + (d + 1) :=
      ⟨j - v.data.length - 1, by omega⟩
    have hjle : d + 1 ≤ (ext ++ T).length := by
      rw [List.length_append] at hj2
      omega
    have hdrop : (v.data ++ (ext ++ T)).drop (v.data.length + (d + 1)) ++ D =
        (ext ++ (sep ++ substParts ps vals)).drop (d + 1) := by
      rw [List.drop_append, ← List.drop_append_of_le_length hjle,
        List.append_assoc, hTD]
    rw [hdrop] at hE hc
    have hTlen : T.length ≤ (sep ++ substParts ps vals).length := by
      have hl := congrArg List.length hTD
      rw [List.length_append] at hl
      omega
    have hdle2 : d + 1 ≤ (ext ++ (sep ++ substParts ps vals)).length := by
      rw [List.length_append] at hjle ⊢
      omega
    have hwl : ((ext ++ (sep ++ substParts ps vals)).take (d + 1)).length =
        d + 1 := by
      rw [List.length_take]
      omega
    have hwne : (ext ++ (sep ++ substParts ps vals)).take (d + 1) ≠ [] := by
      intro h0
      rw [h0] at hwl
      simp at hwl
    have hsub : (ext ++ (sep ++ substParts ps vals)).take (d + 1) =
        (ext ++ T).take (d + 1) := by
      rw [show ext ++ (sep ++ substParts ps vals) = (ext ++ T) ++ D from by
          rw [List.append_assoc, hTD],
        List.take_append_of_le_length hjle]
    have hwns : '/' ∉ (ext ++ (sep ++ substParts ps vals)).take (d + 1) := by
      rw [hsub]
      intro hm
      exact not_mem_slash_append hext hT (List.take_subset _ _ hm)
    obtain ⟨y, hy⟩ := (strStarts_iff _ _).mp hE
    rw [hy, List.drop_left] at hc
    obtain ⟨z, rfl, -⟩ := matchLit_some_inv hc
    have heqq : (ext ++ (sep ++ substParts ps vals)).take (d + 1) ++
        (ext ++ (sep ++ z)) = ext ++ (sep ++ substParts ps vals) := by
      rw [← hy]
      exact List.take_append_drop _ _
    exact no_overshoot hwne hwns hext hlen rfl heqq
  have hkle : v.data.length ≤ (v.data ++ (ext ++ T)).length := by
    rw [List.length_append]
    omega
  rw [tryLen_stable hkle hover]
  exact tryLen_hit hhit

/-- One placeholder group of a substituted path matches exactly the
substituted value and passes the rest to the continuation. -/
theorem matchPh_subst (ph : Placeholder) (sep : List Char)
    (ps : List (Placeholder × List Char)) (vals : List String) (v : String)
    (rs : RouteData) (hv : '/' ∉ v.data) (hext : '/' ∉ ph.ext)
    (hlen : vals.length = ps.length)
    (hcont : matchParts ps (substParts ps vals) = some rs) :
    matchPh ph sep (matchParts ps)
      ('/' :: (v.data ++ (ph.ext ++ (sep ++ substParts ps vals)))) =
      some ((ph.name, v) :: rs) := by
  have hT : '/' ∉ (sep ++ substParts ps vals).takeWhile notSlash :=
    not_mem_takeWhile_notSlash _
  have hTD : (sep ++ substParts ps vals).takeWhile notSlash ++
      (sep ++ substParts ps vals).dropWhile notSlash =
      sep ++ substParts ps vals := List.takeWhile_append_dropWhile _ _
  have hcore := tryLen_core ph.name ph.ext sep ps vals v rs _ _ hext hT
    hTD hlen hcont
  have hrun :
      (v.data ++ (ph.ext ++ (sep ++ substParts ps vals))).takeWhile notSlash
      = v.data ++ (ph.ext ++ (sep ++ substParts ps vals).takeWhile notSlash)
      := by
    rw [takeWhile_noSlash_append _ hv, takeWhile_noSlash_append _ hext]
  have hrem :
      (v.data ++ (ph.ext ++ (sep ++ substParts ps vals))).dropWhile notSlash
      = (sep ++ substParts ps vals).dropWhile notSlash := by
    rw [dropWhile_noSlash_append _ hv, dropWhile_noSlash_append _ hext]
  have hps : phStep ph sep (matchParts ps)
      ('/' :: (v.data ++ (ph.ext ++ (sep ++ substParts ps vals)))) =
      some ((ph.name, v) :: rs) := by
    rw [show phStep ph sep (matchParts ps)
        ('/' :: (v.data ++ (ph.ext ++ (sep ++ substParts ps vals)))) =
        tryLen ph.name ph.ext (matchLit sep (matchParts ps))
          ((v.data ++ (ph.ext ++ (sep ++ substParts ps vals))).takeWhile
            notSlash)
          ((v.data ++ (ph.ext ++ (sep ++ substParts ps vals))).dropWhile
            notSlash)
          ((v.data ++ (ph.ext ++ (sep ++ substParts ps vals))).takeWhile
            notSlash).length
        from by simp [phStep]]
    rw [hrun, hrem]
    exact hcore
  unfold matchPh
  rw [hps]

/-- Substituted paths round-trip through the token-sequence matcher. -/
theorem matchParts_subst (ps : List (Placeholder × List Char)) :
    ∀ (vals : List String), vals.length = ps.length →
    (∀ v ∈ vals, '/' ∉ v.data) →
    (∀ pr ∈ ps, '/' ∉ pr.1.ext) →
    matchParts ps (substParts ps vals) =
      some ((ps.map (fun pr => pr.1.name)).zip vals) := by
  induction ps with
  | nil =>
    intro vals hlen _ _
    cases vals with
    | nil => rfl
    | cons v vs => simp at hlen
  | cons pr ps ih =>
    intro vals hlen hvals hexts
    obtain ⟨ph, sep⟩ := pr
    cases vals with
    | nil => simp at hlen
    | cons v vs =>
      have hlen2 : vs.length = ps.length := by simpa using hlen
      have hcont := ih vs hlen2
        (fun x hx => hvals x (List.mem_cons_of_mem _ hx))
        (fun x hx => hexts x (List.mem_cons_of_mem _ hx))
      have hv : '/' ∉ v.data := hvals v (List.mem_cons_self _ _)
      have hext : '/' ∉ ph.ext := hexts (ph, sep) (List.mem_cons_self _ _)
      have hsub : substParts ((ph, sep) :: ps) (v :: vs) =
          '/' :: (v.data ++ (ph.ext ++ (sep ++ substParts ps vs))) := by
        simp [substParts, List.append_assoc]
      rw [hsub]
      rw [show matchParts ((ph, sep) :: ps)
          ('/' :: (v.data ++ (ph.ext ++ (sep ++ substParts ps vs)))) =
          matchPh ph sep (matchParts ps)
            ('/' :: (v.data ++ (ph.ext ++ (sep ++ substParts ps vs))))
          from rfl]
      rw [matchPh_subst ph sep ps vs v _ hv hext hlen2 hcont]
      simp

/-- Claim C3: route round-trip — for every route pattern (token form:
leading literal, then placeholders with their extensions and separating
literals) with distinct placeholder names, substituting arbitrary
slash-free strings for all placeholders and matching the resulting path
with the full-mode compiled matcher returns exactly the mapping from
each placeholder name to its substituted string. -/
theorem claim_C3 (preL : List Char) (parts : List (Placeholder × List Char))
    (vals : List String) (hlen : vals.length = parts.length)
    (hvals : ∀ v ∈ vals, '/' ∉ v.data)
    (hexts : ∀ pr ∈ parts, '/' ∉ pr.1.ext)
    (hnodup : (parts.map (fun pr => pr.1.name)).Nodup) :
    matchRoute ⟨preL, parts⟩ (preL ++ substParts parts vals) =
      some ((parts.map (fun pr => pr.1.name)).zip vals) := by
  unfold matchRoute
  dsimp only
  rw [strStarts_append, if_pos rfl, List.drop_left]
  exact matchParts_subst parts vals hlen hvals hexts

/-- Witness for C3: pattern `/docs/:x.json/mid/:y?` with `x := "b.json"`
(exercising greedy backtracking through the extension) and `y := ""`. -/
theorem claim_C3_witness :
    ((["b.json", ""] : List String).length =
      ([({ name := "x", opt := false, ext := ".json".data }, "/mid".data),
        ({ name := "y", opt := true, ext := [] }, [])] :
        List (Placeholder × List Char)).length) ∧
    (∀ v ∈ (["b.json", ""] : List String), '/' ∉ v.data) ∧
    (∀ pr ∈ ([({ name := "x", opt := false, ext := ".json".data },
        "/mid".data), ({ name := "y", opt := true, ext := [] }, [])] :
        List (Placeholder × List Char)), '/' ∉ pr.1.ext) ∧
    (([({ name := "x", opt := false, ext := ".json".data }, "/mid".data),
        ({ name := "y", opt := true, ext := [] }, [])] :
        List (Placeholder × List Char)).map (fun pr => pr.1.name)).Nodup ∧
    matchRoute ⟨"/docs".data,
        [({ name := "x", opt := false, ext := ".json".data }, "/mid".data),
         ({ name := "y", opt := true, ext := [] }, [])]⟩
      ("/docs".data ++ substParts
        [({ name := "x", opt := false, ext := ".json".data }, "/mid".data),
         ({ name := "y", opt := true, ext := [] }, [])] ["b.json", ""]) =
      some ((([({ name := "x", opt := false, ext := ".json".data },
          "/mid".data), ({ name := "y", opt := true, ext := [] }, [])] :
          List (Placeholder × List Char)).map (fun pr => pr.1.name)).zip
        (["b.json", ""] : List String)) :=
  ⟨by decide, by decide, by decide, by decide,
    claim_C3 "/docs".data
      [({ name := "x", opt := false, ext := ".json".data }, "/mid".data),
       ({ name := "y", opt := true, ext := [] }, [])]
      ["b.json", ""] (by decide) (by decide) (by decide) (by decide)⟩

end Bobo
